import Mathlib

/-!
Shallow embedding of the `wsdl` package (types.go): the WSDL document model,
the tag-driven XML decoding that Go's encoding/xml performs for the struct
tags declared in types.go, and the custom `RestrictionAttr.UnmarshalXML`
resolver.  XML input is modelled as a tree of elements and character data
(well-formedness of the byte stream is the tokenizer's concern and is out of
scope); the token-stream view needed for `Decoder.Skip` is modelled
separately as a token list.
-/

namespace Wsdl

/-- XML qualified name, mirroring encoding/xml's `Name` (Space, Local). -/
structure XName where
  space : String
  localName : String
deriving DecidableEq

/-- XML attribute, mirroring encoding/xml's `Attr` (Name, Value). -/
structure XAttr where
  name : XName
  value : String
deriving DecidableEq

/-- Parsed XML element tree: an element with its attribute set and ordered
children, or character data. -/
inductive XTree where
  | elem (name : XName) (attrs : List XAttr) (children : List XTree)
  | text (data : String)

/-- Decode errors surfaced by the embedded decoder.
`missingRequiredAttribute` is the error the Go code produces as
`fmt.Errorf("No ref cound")` when `len(a.Key) == 0` in
`RestrictionAttr.UnmarshalXML`; the spec names it MissingRequiredAttribute. -/
inductive DecodeError where
  | missingRequiredAttribute
  | parseFailure (field : String) (value : String)
  | wrongRootElement (found : String)
  | unexpectedEOF
deriving DecidableEq

/-- Mirror of Go's `strings.Split(s, sep)` for a one-character separator,
on the character list: splits around every occurrence of `c`, always
returning at least one (possibly empty) piece. -/
def splitChar (c : Char) : List Char → List (List Char)
  | [] => [[]]
  | x :: xs =>
    if x = c then [] :: splitChar c xs
    else
      match splitChar c xs with
      | [] => [[x]]
      | p :: ps => (x :: p) :: ps

/-- Mirror of Go's `split[len(split)-1]`: the last element of a list of
pieces (empty list gives the empty piece; `splitChar` never returns one). -/
def goLast : List (List Char) → List Char
  | [] => []
  | [p] => p
  | _ :: q :: ps => goLast (q :: ps)

/-- The final segment of `s` split on the `:` namespace separator, exactly
as `RestrictionAttr.UnmarshalXML` computes `a.Key` from `attr.Value`. -/
def lastColonSegment (s : String) : String :=
  String.mk (goLast (splitChar ':' s.toList))

/-- Mirror of the Go struct `RestrictionAttr` (types.go): XMLName, the raw
`ref` attribute, and the resolved Key/Value pair. -/
structure RestrictionAttr where
  xmlName : XName
  ref : String
  key : String
  value : String
deriving DecidableEq

/-- First attribute whose local name is "ref", as found by the first loop of
`RestrictionAttr.UnmarshalXML` (which breaks on the first match). -/
def findRefAttr (attrs : List XAttr) : Option XAttr :=
  attrs.find? (fun a => a.name.localName = "ref")

/-- Pure core of `RestrictionAttr.UnmarshalXML` (types.go lines 77-107):
reset the struct, record the start name, find the first `ref` attribute and
derive Key as the last colon-separated segment of its value; fail when the
derived Key is empty (this covers both a missing `ref` attribute and a `ref`
value whose final segment is empty); otherwise look up the first attribute
whose local name equals Key, its value (or "") becoming Value.  The
`d.Skip()` side effect is modelled at the token level separately. -/
def restrictionAttrFromAttrs (startName : XName) (attrs : List XAttr) :
    Except DecodeError RestrictionAttr :=
  match findRefAttr attrs with
  | none => .error .missingRequiredAttribute
  | some a =>
    let k := lastColonSegment a.value
    if k = "" then .error .missingRequiredAttribute
    else
      .ok { xmlName := startName, ref := a.value, key := k,
            value :=
              match attrs.find? (fun b => b.name.localName = k) with
              | none => ""
              | some b => b.value }

theorem splitChar_ne_nil (c : Char) (l : List Char) : splitChar c l ≠ [] := by
  induction l with
  | nil => simp [splitChar]
  | cons x xs ih =>
    by_cases h : x = c
    · simp [splitChar, h]
    · rw [splitChar, if_neg h]
      cases hs : splitChar c xs with
      | nil => simp
      | cons p ps => simp

theorem splitChar_eq_singleton (c : Char) (l p : List Char)
    (h : splitChar c l = [p]) : p = l := by
  induction l generalizing p with
  | nil =>
    rw [splitChar] at h
    simpa using h.symm
  | cons x xs ih =>
    by_cases hx : x = c
    · rw [splitChar, if_pos hx] at h
      have := congrArg List.tail h
      simp at this
      exact absurd this (splitChar_ne_nil c xs)
    · rw [splitChar, if_neg hx] at h
      cases hs : splitChar c xs with
      | nil => exact absurd hs (splitChar_ne_nil c xs)
      | cons q qs =>
        rw [hs] at h
        have h1 : x :: q = p ∧ qs = [] := by
          constructor
          · exact (List.cons.injEq _ _ _ _ ▸ h).1
          · exact (List.cons.injEq _ _ _ _ ▸ h).2
        rcases h1 with ⟨hp, hqs⟩
        rw [hqs] at hs
        rw [← hp, ih q hs]

theorem splitChar_pieces_not_mem (c : Char) (l : List Char) :
    ∀ p ∈ splitChar c l, c ∉ p := by
  induction l with
  | nil =>
    intro p hp
    rw [splitChar] at hp
    simp at hp
    simp [hp]
  | cons x xs ih =>
    intro p hp
    by_cases hx : x = c
    · rw [splitChar, if_pos hx] at hp
      rcases List.mem_cons.mp hp with h | h
      · simp [h]
      · exact ih p h
    · rw [splitChar, if_neg hx] at hp
      cases hs : splitChar c xs with
      | nil => exact absurd hs (splitChar_ne_nil c xs)
      | cons q qs =>
        rw [hs] at hp
        rcases List.mem_cons.mp hp with h | h
        · subst h
          intro hmem
          rcases List.mem_cons.mp hmem with h | h
          · exact hx h.symm
          · exact ih q (hs ▸ List.mem_cons_self q qs) h
        · exact ih p (hs ▸ List.mem_cons.mpr (Or.inr h))

theorem goLast_mem (l : List (List Char)) (h : l ≠ []) : goLast l ∈ l := by
  induction l with
  | nil => exact absurd rfl h
  | cons p ps ih =>
    cases ps with
    | nil => simp [goLast]
    | cons q qs =>
      rw [goLast]
      exact List.mem_cons.mpr (Or.inr (ih (by simp)))

theorem goLast_splitChar_not_mem (c : Char) (l : List Char) :
    c ∉ goLast (splitChar c l) :=
  splitChar_pieces_not_mem c l _ (goLast_mem _ (splitChar_ne_nil c l))

theorem goLast_splitChar_suffix (c : Char) (l : List Char) :
    goLast (splitChar c l) <:+ l := by
  induction l with
  | nil => rw [splitChar]; exact List.nil_suffix
  | cons x xs ih =>
    by_cases hx : x = c
    · rw [splitChar, if_pos hx]
      cases hs : splitChar c xs with
      | nil => exact absurd hs (splitChar_ne_nil c xs)
      | cons q qs =>
        rw [goLast]
        have : goLast (q :: qs) <:+ xs := by rw [← hs]; exact ih
        exact this.trans (List.suffix_cons x xs)
    · rw [splitChar, if_neg hx]
      cases hs : splitChar c xs with
      | nil => exact absurd hs (splitChar_ne_nil c xs)
      | cons q qs =>
        cases qs with
        | nil =>
          rw [goLast]
          have hq : q = xs := splitChar_eq_singleton c xs q hs
          rw [hq]
        | cons r rs =>
          rw [goLast]
          have h2 : goLast (q :: r :: rs) = goLast (r :: rs) := by rw [goLast]
          have : goLast (q :: r :: rs) <:+ xs := by rw [← hs]; exact ih
          rw [h2] at this
          exact this.trans (List.suffix_cons x xs)

/-- Claim C2: an `attribute` element with `ref="tns:arrayType"` and
`arrayType="xsd:string[]"` resolves to Key="arrayType",
Value="xsd:string[]"; in general, on success, Key is the final
colon-separated segment of the first `ref` attribute's value and Value is
the value of the first sibling attribute whose local name equals Key. -/
theorem restrictionAttr_ref_resolution :
    (restrictionAttrFromAttrs ⟨"", "attribute"⟩
        [⟨⟨"", "ref"⟩, "tns:arrayType"⟩, ⟨⟨"", "arrayType"⟩, "xsd:string[]"⟩] =
      .ok ⟨⟨"", "attribute"⟩, "tns:arrayType", "arrayType", "xsd:string[]"⟩) ∧
    (∀ (n : XName) (attrs : List XAttr) (a : XAttr) (r : RestrictionAttr),
      findRefAttr attrs = some a →
      restrictionAttrFromAttrs n attrs = .ok r →
      r.key = lastColonSegment a.value ∧
      ∀ b : XAttr,
        attrs.find? (fun x => x.name.localName = lastColonSegment a.value) =
          some b →
        r.value = b.value) := by
  constructor
  · rfl
  · intro n attrs a r href hok
    simp only [restrictionAttrFromAttrs, href] at hok
    by_cases hk : lastColonSegment a.value = ""
    · simp only [if_pos hk] at hok
      exact Except.noConfusion hok
    · simp only [if_neg hk, Except.ok.injEq] at hok
      subst hok
      refine ⟨rfl, fun b hb => ?_⟩
      dsimp only
      rw [hb]

/-- Witness for C2's general clause at a concrete input. -/
theorem restrictionAttr_ref_resolution_witness :
    (⟨⟨"", "attribute"⟩, "q:foo", "foo", "bar"⟩ : RestrictionAttr).key =
      lastColonSegment "q:foo" ∧
    ∀ b : XAttr,
      List.find?
          (fun x => x.name.localName = lastColonSegment "q:foo")
          [⟨⟨"", "ref"⟩, "q:foo"⟩, ⟨⟨"", "foo"⟩, "bar"⟩] = some b →
      (⟨⟨"", "attribute"⟩, "q:foo", "foo", "bar"⟩ : RestrictionAttr).value =
        b.value :=
  restrictionAttr_ref_resolution.2 ⟨"", "attribute"⟩
    [⟨⟨"", "ref"⟩, "q:foo"⟩, ⟨⟨"", "foo"⟩, "bar"⟩]
    ⟨⟨"", "ref"⟩, "q:foo"⟩ ⟨⟨"", "attribute"⟩, "q:foo", "foo", "bar"⟩ rfl rfl

/-- Claim C4: a `ref` naming an attribute absent from the element instance
is not an error: with `ref` present, a nonempty derived Key and no sibling
attribute whose local name equals that Key, resolution succeeds with
Value = "". -/
theorem restrictionAttr_missing_value_ok (n : XName) (attrs : List XAttr)
    (a : XAttr) (href : findRefAttr attrs = some a)
    (hkey : lastColonSegment a.value ≠ "")
    (habs : ∀ b ∈ attrs, b.name.localName ≠ lastColonSegment a.value) :
    restrictionAttrFromAttrs n attrs =
      .ok ⟨n, a.value, lastColonSegment a.value, ""⟩ := by
  have hnone : attrs.find?
      (fun b => b.name.localName = lastColonSegment a.value) = none := by
    rw [List.find?_eq_none]
    intro x hx
    simp only [decide_eq_true_eq]
    exact habs x hx
  simp only [restrictionAttrFromAttrs, href, if_neg hkey, hnone]

/-- Witness for C4: `ref="tns:arrayType"` with no `arrayType` sibling. -/
theorem restrictionAttr_missing_value_ok_witness :
    restrictionAttrFromAttrs ⟨"", "attribute"⟩ [⟨⟨"", "ref"⟩, "tns:arrayType"⟩] =
      .ok ⟨⟨"", "attribute"⟩, "tns:arrayType", "arrayType", ""⟩ := by
  have h := restrictionAttr_missing_value_ok ⟨"", "attribute"⟩
    [⟨⟨"", "ref"⟩, "tns:arrayType"⟩] ⟨⟨"", "ref"⟩, "tns:arrayType"⟩
    rfl (by decide) (by decide)
  simpa using h

theorem restrictionAttrFromAttrs_key_empty (n : XName) (attrs : List XAttr)
    (h : ∀ a : XAttr, findRefAttr attrs = some a →
      lastColonSegment a.value = "") :
    restrictionAttrFromAttrs n attrs = .error .missingRequiredAttribute := by
  cases href : findRefAttr attrs with
  | none => simp only [restrictionAttrFromAttrs, href]
  | some a => simp only [restrictionAttrFromAttrs, href, if_pos (h a href)]

/-- Claim C9: the resolver fails with the same MissingRequiredAttribute
error whenever the derived Key is empty — both when `ref` is absent (the
hypothesis is vacuous) and when `ref` is present with an empty final
colon-separated segment (e.g. `ref=""` or `ref="tns:"`). -/
theorem restrictionAttr_empty_key_error (n : XName) (attrs : List XAttr)
    (h : ∀ a : XAttr, findRefAttr attrs = some a →
      lastColonSegment a.value = "") :
    restrictionAttrFromAttrs n attrs = .error .missingRequiredAttribute :=
  restrictionAttrFromAttrs_key_empty n attrs h

/-- Witness for C9: `ref="tns:"` is present, yet decoding fails exactly as
when `ref` is absent. -/
theorem restrictionAttr_empty_key_error_witness :
    restrictionAttrFromAttrs ⟨"", "attribute"⟩ [⟨⟨"", "ref"⟩, "tns:"⟩] =
      .error .missingRequiredAttribute :=
  restrictionAttr_empty_key_error ⟨"", "attribute"⟩ [⟨⟨"", "ref"⟩, "tns:"⟩]
    (by decide)

/-- Claim C10: every successfully resolved RestrictionAttr has a nonempty
Key containing no ':' that equals the final colon-separated segment of Ref
(hence is a suffix of Ref), and Ref is the raw value of the element's first
attribute with local name "ref". -/
theorem restrictionAttr_key_invariants (n : XName) (attrs : List XAttr)
    (r : RestrictionAttr)
    (hok : restrictionAttrFromAttrs n attrs = .ok r) :
    r.key ≠ "" ∧ ':' ∉ r.key.toList ∧ r.key = lastColonSegment r.ref ∧
    r.key.toList <:+ r.ref.toList ∧
    ∃ a : XAttr, findRefAttr attrs = some a ∧ r.ref = a.value := by
  cases href : findRefAttr attrs with
  | none =>
    simp only [restrictionAttrFromAttrs, href] at hok
    exact Except.noConfusion hok
  | some a =>
    simp only [restrictionAttrFromAttrs, href] at hok
    by_cases hk : lastColonSegment a.value = ""
    · simp only [if_pos hk] at hok
      exact Except.noConfusion hok
    · simp only [if_neg hk, Except.ok.injEq] at hok
      subst hok
      refine ⟨hk, ?_, rfl, ?_, a, rfl, rfl⟩
      · exact goLast_splitChar_not_mem ':' a.value.toList
      · exact goLast_splitChar_suffix ':' a.value.toList

/-- Witness for C10 at `ref="tns:arrayType"`. -/
theorem restrictionAttr_key_invariants_witness :
    (⟨⟨"", "attribute"⟩, "tns:arrayType", "arrayType", ""⟩ :
        RestrictionAttr).key ≠ "" ∧
    ':' ∉ (⟨⟨"", "attribute"⟩, "tns:arrayType", "arrayType", ""⟩ :
        RestrictionAttr).key.toList ∧
    (⟨⟨"", "attribute"⟩, "tns:arrayType", "arrayType", ""⟩ :
        RestrictionAttr).key =
      lastColonSegment (⟨⟨"", "attribute"⟩, "tns:arrayType", "arrayType", ""⟩ :
        RestrictionAttr).ref ∧
    (⟨⟨"", "attribute"⟩, "tns:arrayType", "arrayType", ""⟩ :
        RestrictionAttr).key.toList <:+
      (⟨⟨"", "attribute"⟩, "tns:arrayType", "arrayType", ""⟩ :
        RestrictionAttr).ref.toList ∧
    ∃ a : XAttr,
      findRefAttr [⟨⟨"", "ref"⟩, "tns:arrayType"⟩] = some a ∧
      (⟨⟨"", "attribute"⟩, "tns:arrayType", "arrayType", ""⟩ :
        RestrictionAttr).ref = a.value :=
  restrictionAttr_key_invariants ⟨"", "attribute"⟩
    [⟨⟨"", "ref"⟩, "tns:arrayType"⟩]
    ⟨⟨"", "attribute"⟩, "tns:arrayType", "arrayType", ""⟩ rfl

/-- XML token, the stream view encoding/xml's Decoder hands to
`UnmarshalXML`: a start element (with its attribute set), the matching end
element, or character data. -/
inductive XToken where
  | start (name : XName) (attrs : List XAttr)
  | close
  | chardata (data : String)
deriving DecidableEq

/-- Mirror of `Decoder.Skip`: starting just after a consumed start element,
read tokens, tracking nesting depth, until the matching end element is
consumed; returns the remaining tokens (or none at end of input, which Go
reports as a syntax error). -/
def skipToks (depth : Nat) : List XToken → Option (List XToken)
  | [] => none
  | .start _ _ :: rest => skipToks (depth + 1) rest
  | .close :: rest => if depth = 0 then some rest else skipToks (depth - 1) rest
  | .chardata _ :: rest => skipToks depth rest

mutual
/-- Token stream of one parsed element tree. -/
def tokensOfTree : XTree → List XToken
  | .text s => [.chardata s]
  | .elem n a cs => .start n a :: (tokensOfForest cs ++ [.close])
/-- Token stream of an ordered list of sibling trees. -/
def tokensOfForest : List XTree → List XToken
  | [] => []
  | t :: ts => tokensOfTree t ++ tokensOfForest ts
end

/-- Token-level `RestrictionAttr.UnmarshalXML`: the resolver is handed the
start element (name and attributes) with the rest of the stream positioned
at the element's first child token; on success it calls `d.Skip()`,
consuming the element's whole subtree. -/
def unmarshalRestrictionAttrTokens (startName : XName) (attrs : List XAttr)
    (rest : List XToken) : Except DecodeError (RestrictionAttr × List XToken) :=
  match restrictionAttrFromAttrs startName attrs with
  | .error e => .error e
  | .ok r =>
    match skipToks 0 rest with
    | none => .error .unexpectedEOF
    | some tail => .ok (r, tail)

mutual
theorem skipToks_tokensOfTree (t : XTree) (d : Nat) (rest : List XToken) :
    skipToks d (tokensOfTree t ++ rest) = skipToks d rest := by
  cases t with
  | text s => rw [tokensOfTree]; rfl
  | elem n a cs =>
    rw [tokensOfTree]
    have h1 : (XToken.start n a :: (tokensOfForest cs ++ [XToken.close])) ++
        rest = XToken.start n a ::
          (tokensOfForest cs ++ (XToken.close :: rest)) := by
      simp
    rw [h1, skipToks, skipToks_tokensOfForest cs (d + 1) (XToken.close :: rest),
      skipToks, if_neg (Nat.succ_ne_zero d), Nat.add_sub_cancel]
theorem skipToks_tokensOfForest (cs : List XTree) (d : Nat)
    (rest : List XToken) :
    skipToks d (tokensOfForest cs ++ rest) = skipToks d rest := by
  cases cs with
  | nil => rw [tokensOfForest]; rfl
  | cons t ts =>
    rw [tokensOfForest, List.append_assoc, skipToks_tokensOfTree,
      skipToks_tokensOfForest]
end

/-- Claim C5: whenever the resolver derives a Key (i.e. it returns without
error), it consumes the element's entire subtree: for any children forest,
the stream is left exactly past the element's end tag, and the result does
not depend on the children. -/
theorem restrictionAttr_consumes_subtree (n : XName) (attrs : List XAttr)
    (cs : List XTree) (tail : List XToken) (r : RestrictionAttr)
    (hok : restrictionAttrFromAttrs n attrs = .ok r) :
    unmarshalRestrictionAttrTokens n attrs
        (tokensOfForest cs ++ XToken.close :: tail) = .ok (r, tail) := by
  rw [unmarshalRestrictionAttrTokens]
  rw [hok]
  rw [skipToks_tokensOfForest cs 0 (XToken.close :: tail)]
  rw [skipToks, if_pos rfl]

/-- Witness for C5: a concrete `attribute` element with a child subtree and
trailing tokens; the child subtree is consumed whole. -/
theorem restrictionAttr_consumes_subtree_witness :
    unmarshalRestrictionAttrTokens ⟨"", "attribute"⟩
        [⟨⟨"", "ref"⟩, "tns:arrayType"⟩]
        (tokensOfForest [.elem ⟨"", "ignored"⟩ [] [.text "x"]] ++
          XToken.close :: [XToken.chardata "after"]) =
      .ok (⟨⟨"", "attribute"⟩, "tns:arrayType", "arrayType", ""⟩,
        [XToken.chardata "after"]) :=
  restrictionAttr_consumes_subtree ⟨"", "attribute"⟩
    [⟨⟨"", "ref"⟩, "tns:arrayType"⟩] [.elem ⟨"", "ignored"⟩ [] [.text "x"]]
    [XToken.chardata "after"]
    ⟨⟨"", "attribute"⟩, "tns:arrayType", "arrayType", ""⟩ rfl

/-- Claim C3 counterexample: the claim's "only signals this failure when
`ref` is absent" is false — an `attribute` element whose attribute set does
contain a `ref` attribute (here `ref="tns:"`) is still rejected with
MissingRequiredAttribute, because the derived Key is empty. -/
theorem restrictionAttr_fails_with_ref_present :
    restrictionAttrFromAttrs ⟨"", "attribute"⟩ [⟨⟨"", "ref"⟩, "tns:"⟩] =
      .error .missingRequiredAttribute ∧
    (⟨⟨"", "ref"⟩, "tns:"⟩ : XAttr) ∈ [(⟨⟨"", "ref"⟩, "tns:"⟩ : XAttr)] ∧
    (⟨⟨"", "ref"⟩, "tns:"⟩ : XAttr).name.localName = "ref" :=
  ⟨rfl, List.mem_singleton.mpr rfl, rfl⟩

/-- Mirror of Go's `strconv.ParseBool`, used by encoding/xml for `bool`
struct fields bound to attributes. -/
def parseGoBool (s : String) : Except DecodeError Bool :=
  if s = "1" ∨ s = "t" ∨ s = "T" ∨ s = "true" ∨ s = "TRUE" ∨ s = "True" then
    .ok true
  else if s = "0" ∨ s = "f" ∨ s = "F" ∨ s = "false" ∨ s = "FALSE" ∨
      s = "False" then
    .ok false
  else .error (.parseFailure "bool" s)

/-- Decimal value of a digit run; none on a non-digit. -/
def digitsVal (acc : Nat) : List Char → Option Nat
  | [] => some acc
  | c :: cs => if c.isDigit then digitsVal (10 * acc + (c.toNat - 48)) cs
    else none

/-- Mirror of Go's `strconv.ParseInt(s, 10, 64)`, used by encoding/xml for
`int` struct fields bound to attributes: optional sign, a nonempty digit
run, 64-bit signed range. -/
def parseGoInt (s : String) : Except DecodeError Int :=
  match s.toList with
  | '-' :: d :: ds =>
    match digitsVal 0 (d :: ds) with
    | none => .error (.parseFailure "int" s)
    | some v =>
      if (2 ^ 63 : Nat) < v then .error (.parseFailure "int" s)
      else .ok (-(v : Int))
  | '+' :: d :: ds =>
    match digitsVal 0 (d :: ds) with
    | none => .error (.parseFailure "int" s)
    | some v =>
      if (2 ^ 63 - 1 : Nat) < v then .error (.parseFailure "int" s)
      else .ok (v : Int)
  | d :: ds =>
    match digitsVal 0 (d :: ds) with
    | none => .error (.parseFailure "int" s)
    | some v =>
      if (2 ^ 63 - 1 : Nat) < v then .error (.parseFailure "int" s)
      else .ok (v : Int)
  | [] => .error (.parseFailure "int" s)

/-- Concatenated character data directly inside an element, as encoding/xml
collects it for a `string` struct field bound to an element. -/
def directText (ts : List XTree) : String :=
  ts.foldl (fun s t => match t with | .text d => s ++ d | _ => s) ""

/-- Go struct `Enum` (types.go): one enumeration value. -/
structure Enum where
  xmlName : XName
  value : String
deriving DecidableEq

/-- Go struct `Union` (types.go): memberTypes attribute. -/
structure Union where
  xmlName : XName
  memberTypes : String
deriving DecidableEq

/-- Go struct `Restriction` (types.go): base attribute, enumeration list,
and the optional ref-resolved attribute (Go field `Attribute`,
`*RestrictionAttr`). -/
structure Restriction where
  xmlName : XName
  base : String
  enum : List Enum
  attributeRef : Option RestrictionAttr
deriving DecidableEq

/-- Go struct `SimpleType` (types.go). -/
structure SimpleType where
  xmlName : XName
  name : String
  union : Option Union
  restriction : Option Restriction
deriving DecidableEq

/-- Go struct `AnyElement` (types.go): wildcard with min/max occurs. -/
structure AnyElement where
  xmlName : XName
  min : Int
  max : String
deriving DecidableEq

mutual
/-- Go struct `ComplexType` (types.go): name/abstract attributes, the
annotation>documentation text, all>element list, and optional
complexContent and sequence. -/
inductive ComplexType where
  | mk (xmlName : XName) (name : String) (abstract : Bool) (doc : String)
      (allElements : List Element) (complexContent : Option ComplexContent)
      (sequence : Option Sequence) : ComplexType
/-- Go struct `ComplexContent` (types.go). -/
inductive ComplexContent where
  | mk (xmlName : XName) (extension : Option Extension)
      (restriction : Option Restriction) : ComplexContent
/-- Go struct `Extension` (types.go). -/
inductive Extension where
  | mk (xmlName : XName) (base : String) (sequence : Option Sequence) :
      Extension
/-- Go struct `Sequence` (types.go): three separate same-parent child
slices — nested complexTypes, elements, and wildcard `any` elements. -/
inductive Sequence where
  | mk (xmlName : XName) (complexTypes : List ComplexType)
      (elements : List Element) (anyEls : List AnyElement) : Sequence
/-- Go struct `Element` (types.go): name/ref/type/minOccurs/maxOccurs/
nillable attributes and an optional inline complexType. -/
inductive Element where
  | mk (xmlName : XName) (name ref typeName : String) (min : Int)
      (max : String) (nillable : Bool) (complexType : Option ComplexType) :
      Element
end

def ComplexType.xmlName : ComplexType → XName
  | .mk v _ _ _ _ _ _ => v

def ComplexType.name : ComplexType → String
  | .mk _ v _ _ _ _ _ => v

def ComplexType.abstract : ComplexType → Bool
  | .mk _ _ v _ _ _ _ => v

def ComplexType.doc : ComplexType → String
  | .mk _ _ _ v _ _ _ => v

def ComplexType.allElements : ComplexType → List Element
  | .mk _ _ _ _ v _ _ => v

def ComplexType.complexContent : ComplexType → Option ComplexContent
  | .mk _ _ _ _ _ v _ => v

def ComplexType.sequence : ComplexType → Option Sequence
  | .mk _ _ _ _ _ _ v => v

def ComplexContent.xmlName : ComplexContent → XName
  | .mk v _ _ => v

def ComplexContent.extension : ComplexContent → Option Extension
  | .mk _ v _ => v

def ComplexContent.restriction : ComplexContent → Option Restriction
  | .mk _ _ v => v

def Extension.xmlName : Extension → XName
  | .mk v _ _ => v

def Extension.base : Extension → String
  | .mk _ v _ => v

def Extension.sequence : Extension → Option Sequence
  | .mk _ _ v => v

def Sequence.xmlName : Sequence → XName
  | .mk v _ _ _ => v

def Sequence.complexTypes : Sequence → List ComplexType
  | .mk _ v _ _ => v

def Sequence.elements : Sequence → List Element
  | .mk _ _ v _ => v

def Sequence.anyEls : Sequence → List AnyElement
  | .mk _ _ _ v => v

def Element.xmlName : Element → XName
  | .mk v _ _ _ _ _ _ _ => v

def Element.name : Element → String
  | .mk _ v _ _ _ _ _ _ => v

def Element.ref : Element → String
  | .mk _ _ v _ _ _ _ _ => v

def Element.typeName : Element → String
  | .mk _ _ _ v _ _ _ _ => v

def Element.min : Element → Int
  | .mk _ _ _ _ v _ _ _ => v

def Element.max : Element → String
  | .mk _ _ _ _ _ v _ _ => v

def Element.nillable : Element → Bool
  | .mk _ _ _ _ _ _ v _ => v

def Element.complexType : Element → Option ComplexType
  | .mk _ _ _ _ _ _ _ v => v

def ComplexType.setXmlName : ComplexType → XName → ComplexType
  | .mk _ nm ab dc al cc sq, n => .mk n nm ab dc al cc sq

def ComplexType.setDoc : ComplexType → String → ComplexType
  | .mk xn nm ab _ al cc sq, d => .mk xn nm ab d al cc sq

def ComplexType.addAllElement : ComplexType → Element → ComplexType
  | .mk xn nm ab dc al cc sq, e => .mk xn nm ab dc (al ++ [e]) cc sq

def ComplexType.setComplexContent : ComplexType → ComplexContent → ComplexType
  | .mk xn nm ab dc al _ sq, cc => .mk xn nm ab dc al (some cc) sq

def ComplexType.setSequence : ComplexType → Sequence → ComplexType
  | .mk xn nm ab dc al cc _, sq => .mk xn nm ab dc al cc (some sq)

def ComplexContent.setXmlName : ComplexContent → XName → ComplexContent
  | .mk _ ex rs, n => .mk n ex rs

def ComplexContent.setExtension : ComplexContent → Extension → ComplexContent
  | .mk xn _ rs, ex => .mk xn (some ex) rs

def ComplexContent.setRestriction : ComplexContent → Restriction →
    ComplexContent
  | .mk xn ex _, rs => .mk xn ex (some rs)

def Extension.setXmlName : Extension → XName → Extension
  | .mk _ b sq, n => .mk n b sq

def Extension.setSequence : Extension → Sequence → Extension
  | .mk xn b _, sq => .mk xn b (some sq)

def Sequence.setXmlName : Sequence → XName → Sequence
  | .mk _ cts es ans, n => .mk n cts es ans

def Sequence.addComplexType : Sequence → ComplexType → Sequence
  | .mk xn cts es ans, ct => .mk xn (cts ++ [ct]) es ans

def Sequence.addElement : Sequence → Element → Sequence
  | .mk xn cts es ans, e => .mk xn cts (es ++ [e]) ans

def Sequence.addAny : Sequence → AnyElement → Sequence
  | .mk xn cts es ans, ae => .mk xn cts es (ans ++ [ae])

def Element.setXmlName : Element → XName → Element
  | .mk _ nm rf ty mn mx nl ct, n => .mk n nm rf ty mn mx nl ct

def Element.setComplexType : Element → ComplexType → Element
  | .mk xn nm rf ty mn mx nl _, ct => .mk xn nm rf ty mn mx nl (some ct)

def zeroName : XName := ⟨"", ""⟩

def zeroEnum : Enum := ⟨zeroName, ""⟩

def zeroUnion : Union := ⟨zeroName, ""⟩

def zeroRestriction : Restriction := ⟨zeroName, "", [], none⟩

def zeroSimpleType : SimpleType := ⟨zeroName, "", none, none⟩

def zeroAnyElement : AnyElement := ⟨zeroName, 0, ""⟩

def zeroComplexType : ComplexType := .mk zeroName "" false "" [] none none

def zeroComplexContent : ComplexContent := .mk zeroName none none

def zeroExtension : Extension := .mk zeroName "" none

def zeroSequence : Sequence := .mk zeroName [] [] []

def zeroElement : Element := .mk zeroName "" "" "" 0 "" false none

/-- Attribute binding for `Enum` (tag `value,attr`); encoding/xml assigns
each attribute to the matching field in stream order, later duplicates
overwriting earlier ones, and drops unmatched attributes. -/
def applyEnumAttrs (acc : Enum) (attrs : List XAttr) : Enum :=
  attrs.foldl
    (fun acc a =>
      if a.name.localName = "value" then { acc with value := a.value } else acc)
    acc

/-- Attribute binding for `Union` (tag `memberTypes,attr`). -/
def applyUnionAttrs (acc : Union) (attrs : List XAttr) : Union :=
  attrs.foldl
    (fun acc a =>
      if a.name.localName = "memberTypes" then
        { acc with memberTypes := a.value }
      else acc)
    acc

/-- Attribute binding for `Restriction` (tag `base,attr`). -/
def applyRestrictionAttrList (acc : Restriction) (attrs : List XAttr) :
    Restriction :=
  attrs.foldl
    (fun acc a =>
      if a.name.localName = "base" then { acc with base := a.value } else acc)
    acc

/-- Attribute binding for `SimpleType` (tag `name,attr`). -/
def applySimpleTypeAttrs (acc : SimpleType) (attrs : List XAttr) : SimpleType :=
  attrs.foldl
    (fun acc a =>
      if a.name.localName = "name" then { acc with name := a.value } else acc)
    acc

/-- Attribute binding for `AnyElement` (minOccurs is an `int` field, so its
value goes through strconv and can fail). -/
def applyAnyElementAttrs (acc : AnyElement) :
    List XAttr → Except DecodeError AnyElement
  | [] => .ok acc
  | a :: rest =>
    if a.name.localName = "minOccurs" then
      match parseGoInt a.value with
      | .error e => .error e
      | .ok v => applyAnyElementAttrs { acc with min := v } rest
    else if a.name.localName = "maxOccurs" then
      applyAnyElementAttrs { acc with max := a.value } rest
    else applyAnyElementAttrs acc rest

/-- One attribute bound into an `Element` (name/ref/type/minOccurs/
maxOccurs/nillable tags; minOccurs and nillable go through strconv). -/
def applyElementAttr (acc : Element) (a : XAttr) :
    Except DecodeError Element :=
  match acc with
  | .mk xn nm rf ty mn mx nl ct =>
    if a.name.localName = "name" then .ok (.mk xn a.value rf ty mn mx nl ct)
    else if a.name.localName = "ref" then
      .ok (.mk xn nm a.value ty mn mx nl ct)
    else if a.name.localName = "type" then
      .ok (.mk xn nm rf a.value mn mx nl ct)
    else if a.name.localName = "minOccurs" then
      match parseGoInt a.value with
      | .error e => .error e
      | .ok v => .ok (.mk xn nm rf ty v mx nl ct)
    else if a.name.localName = "maxOccurs" then
      .ok (.mk xn nm rf ty mn a.value nl ct)
    else if a.name.localName = "nillable" then
      match parseGoBool a.value with
      | .error e => .error e
      | .ok b => .ok (.mk xn nm rf ty mn mx b ct)
    else .ok acc

/-- Attribute binding for `Element`, in stream order. -/
def applyElementAttrs (acc : Element) :
    List XAttr → Except DecodeError Element
  | [] => .ok acc
  | a :: rest =>
    match applyElementAttr acc a with
    | .error e => .error e
    | .ok acc2 => applyElementAttrs acc2 rest

/-- Attribute binding for `ComplexType` (name/abstract tags; abstract goes
through strconv.ParseBool). -/
def applyComplexTypeAttrs (acc : ComplexType) :
    List XAttr → Except DecodeError ComplexType
  | [] => .ok acc
  | a :: rest =>
    match acc with
    | .mk xn nm ab dc al cc sq =>
      if a.name.localName = "name" then
        applyComplexTypeAttrs (.mk xn a.value ab dc al cc sq) rest
      else if a.name.localName = "abstract" then
        match parseGoBool a.value with
        | .error e => .error e
        | .ok b => applyComplexTypeAttrs (.mk xn nm b dc al cc sq) rest
      else applyComplexTypeAttrs acc rest

/-- Attribute binding for `Extension` (tag `base,attr`). -/
def applyExtensionAttrs (acc : Extension) (attrs : List XAttr) : Extension :=
  attrs.foldl
    (fun acc a =>
      if a.name.localName = "base" then
        match acc with
        | .mk xn _ sq => .mk xn a.value sq
      else acc)
    acc

/-- The `annotation>documentation` path binding for the `Doc` field: inside
an `annotation` element, every `documentation` child's character data is
bound to the field, later ones overwriting earlier ones; other children are
skipped. -/
def annotationDocText (cur : String) (ts : List XTree) : String :=
  ts.foldl
    (fun cur t =>
      match t with
      | .elem n _ cs => if n.localName = "documentation" then directText cs
        else cur
      | .text _ => cur)
    cur

/-- Fresh `Enum` decoded from an `enumeration` child (children skipped:
`Enum` has no element-bound fields). -/
def decodeEnumNode (n : XName) (attrs : List XAttr) : Enum :=
  applyEnumAttrs { zeroEnum with xmlName := n } attrs

/-- Children walk for `Restriction`: `enumeration` children append to the
Enum slice; an `attribute` child is delegated to the
`RestrictionAttr.UnmarshalXML` resolver (its subtree is consumed, never
structurally decoded) and overwrites the `Attribute` field; anything else
is skipped without error. -/
def decodeRestrictionKids (acc : Restriction) :
    List XTree → Except DecodeError Restriction
  | [] => .ok acc
  | .text _ :: rest => decodeRestrictionKids acc rest
  | .elem n a _ :: rest =>
    if n.localName = "enumeration" then
      decodeRestrictionKids { acc with enum := acc.enum ++ [decodeEnumNode n a] }
        rest
    else if n.localName = "attribute" then
      match restrictionAttrFromAttrs n a with
      | .error e => .error e
      | .ok r => decodeRestrictionKids { acc with attributeRef := some r } rest
    else decodeRestrictionKids acc rest

/-- Decode a `restriction` element into an existing value (encoding/xml
fills the fields of the value in place, so repeated occurrences merge). -/
def decodeRestrictionNode (cur : Restriction) (n : XName) (attrs : List XAttr)
    (cs : List XTree) : Except DecodeError Restriction :=
  decodeRestrictionKids (applyRestrictionAttrList { cur with xmlName := n }
    attrs) cs

/-- Decode a `union` element (no element-bound fields: children skipped). -/
def decodeUnionNode (cur : Union) (n : XName) (attrs : List XAttr) : Union :=
  applyUnionAttrs { cur with xmlName := n } attrs

/-- Children walk for `SimpleType`: `union` and `restriction` children bind
to the respective optional fields (merging into an existing value);
anything else is skipped without error. -/
def decodeSimpleTypeKids (acc : SimpleType) :
    List XTree → Except DecodeError SimpleType
  | [] => .ok acc
  | .text _ :: rest => decodeSimpleTypeKids acc rest
  | .elem n a cs :: rest =>
    if n.localName = "union" then
      decodeSimpleTypeKids
        { acc with union := some (decodeUnionNode (acc.union.getD zeroUnion) n a) }
        rest
    else if n.localName = "restriction" then
      match decodeRestrictionNode (acc.restriction.getD zeroRestriction) n a cs with
      | .error e => .error e
      | .ok rs => decodeSimpleTypeKids { acc with restriction := some rs } rest
    else decodeSimpleTypeKids acc rest

/-- Decode a `simpleType` element. -/
def decodeSimpleTypeNode (cur : SimpleType) (n : XName) (attrs : List XAttr)
    (cs : List XTree) : Except DecodeError SimpleType :=
  decodeSimpleTypeKids (applySimpleTypeAttrs { cur with xmlName := n } attrs) cs

mutual

/-- Decode a `complexType` element into an existing value: bind attributes,
then walk the children. -/
def decodeComplexTypeNode (cur : ComplexType) (n : XName) (attrs : List XAttr)
    (cs : List XTree) : Except DecodeError ComplexType :=
  match applyComplexTypeAttrs (cur.setXmlName n) attrs with
  | .error e => .error e
  | .ok acc => decodeComplexTypeKids acc cs
termination_by 2 * sizeOf cs + 1

/-- Children walk for `ComplexType`: one step per child, in order. -/
def decodeComplexTypeKids (acc : ComplexType) (ts : List XTree) :
    Except DecodeError ComplexType :=
  match ts with
  | [] => .ok acc
  | .text _ :: rest => decodeComplexTypeKids acc rest
  | .elem n a cs :: rest =>
    match ctStep acc n a cs with
    | .error e => .error e
    | .ok acc2 => decodeComplexTypeKids acc2 rest
termination_by 2 * sizeOf ts

/-- One `ComplexType` child: `annotation` binds Doc via the
`annotation>documentation` path, `all` collects `element` grandchildren,
`complexContent` and `sequence` bind (merging) to the optional fields, and
any other child element is skipped without error, its subtree undecoded. -/
def ctStep (acc : ComplexType) (n : XName) (a : List XAttr) (cs : List XTree) :
    Except DecodeError ComplexType :=
  if n.localName = "annotation" then
    .ok (acc.setDoc (annotationDocText acc.doc cs))
  else if n.localName = "all" then
    decodeAllElems acc cs
  else if n.localName = "complexContent" then
    match decodeComplexContentNode (acc.complexContent.getD zeroComplexContent)
        n a cs with
    | .error e => .error e
    | .ok cc => .ok (acc.setComplexContent cc)
  else if n.localName = "sequence" then
    match decodeSequenceNode (acc.sequence.getD zeroSequence) n a cs with
    | .error e => .error e
    | .ok sq => .ok (acc.setSequence sq)
  else .ok acc
termination_by 2 * sizeOf cs + 2

/-- The `all>element` path: inside an `all` element, each `element` child
appends to AllElements; other children are skipped. -/
def decodeAllElems (acc : ComplexType) (ts : List XTree) :
    Except DecodeError ComplexType :=
  match ts with
  | [] => .ok acc
  | .text _ :: rest => decodeAllElems acc rest
  | .elem n a cs :: rest =>
    if n.localName = "element" then
      match decodeElementNode zeroElement n a cs with
      | .error e => .error e
      | .ok e => decodeAllElems (acc.addAllElement e) rest
    else decodeAllElems acc rest
termination_by 2 * sizeOf ts

/-- Decode a `complexContent` element into an existing value (it has no
attribute-bound fields). -/
def decodeComplexContentNode (cur : ComplexContent) (n : XName)
    (_attrs : List XAttr) (cs : List XTree) :
    Except DecodeError ComplexContent :=
  decodeComplexContentKids (cur.setXmlName n) cs
termination_by 2 * sizeOf cs + 1

/-- Children walk for `ComplexContent`: `extension` and `restriction`
children bind (merging) to the optional fields; others are skipped. -/
def decodeComplexContentKids (acc : ComplexContent) (ts : List XTree) :
    Except DecodeError ComplexContent :=
  match ts with
  | [] => .ok acc
  | .text _ :: rest => decodeComplexContentKids acc rest
  | .elem n a cs :: rest =>
    if n.localName = "extension" then
      match decodeExtensionNode (acc.extension.getD zeroExtension) n a cs with
      | .error e => .error e
      | .ok ex => decodeComplexContentKids (acc.setExtension ex) rest
    else if n.localName = "restriction" then
      match decodeRestrictionNode (acc.restriction.getD zeroRestriction) n a cs with
      | .error e => .error e
      | .ok rs => decodeComplexContentKids (acc.setRestriction rs) rest
    else decodeComplexContentKids acc rest
termination_by 2 * sizeOf ts

/-- Decode an `extension` element into an existing value. -/
def decodeExtensionNode (cur : Extension) (n : XName) (attrs : List XAttr)
    (cs : List XTree) : Except DecodeError Extension :=
  decodeExtensionKids (applyExtensionAttrs (cur.setXmlName n) attrs) cs
termination_by 2 * sizeOf cs + 1

/-- Children walk for `Extension`: a `sequence` child binds (merging) to
the optional field; others are skipped. -/
def decodeExtensionKids (acc : Extension) (ts : List XTree) :
    Except DecodeError Extension :=
  match ts with
  | [] => .ok acc
  | .text _ :: rest => decodeExtensionKids acc rest
  | .elem n a cs :: rest =>
    if n.localName = "sequence" then
      match decodeSequenceNode (acc.sequence.getD zeroSequence) n a cs with
      | .error e => .error e
      | .ok sq => decodeExtensionKids (acc.setSequence sq) rest
    else decodeExtensionKids acc rest
termination_by 2 * sizeOf ts

/-- Decode a `sequence` element into an existing value (it has no
attribute-bound fields). -/
def decodeSequenceNode (cur : Sequence) (n : XName) (_attrs : List XAttr)
    (cs : List XTree) : Except DecodeError Sequence :=
  decodeSequenceKids (cur.setXmlName n) cs
termination_by 2 * sizeOf cs + 1

/-- Children walk for `Sequence`: each recognized child appends to the
slice for its kind — `complexType` to ComplexTypes, `element` to Elements,
`any` to Any — so relative order is kept within each slice but the
interleaving across the three kinds is not represented; other children are
skipped. -/
def decodeSequenceKids (acc : Sequence) (ts : List XTree) :
    Except DecodeError Sequence :=
  match ts with
  | [] => .ok acc
  | .text _ :: rest => decodeSequenceKids acc rest
  | .elem n a cs :: rest =>
    if n.localName = "complexType" then
      match decodeComplexTypeNode zeroComplexType n a cs with
      | .error e => .error e
      | .ok ct => decodeSequenceKids (acc.addComplexType ct) rest
    else if n.localName = "element" then
      match decodeElementNode zeroElement n a cs with
      | .error e => .error e
      | .ok e => decodeSequenceKids (acc.addElement e) rest
    else if n.localName = "any" then
      match applyAnyElementAttrs { zeroAnyElement with xmlName := n } a with
      | .error e => .error e
      | .ok ae => decodeSequenceKids (acc.addAny ae) rest
    else decodeSequenceKids acc rest
termination_by 2 * sizeOf ts

/-- Decode an `element` element into an existing value. -/
def decodeElementNode (cur : Element) (n : XName) (attrs : List XAttr)
    (cs : List XTree) : Except DecodeError Element :=
  match applyElementAttrs (cur.setXmlName n) attrs with
  | .error e => .error e
  | .ok acc => decodeElementKids acc cs
termination_by 2 * sizeOf cs + 1

/-- Children walk for `Element`: a `complexType` child binds (merging) to
the optional inline complex type; others are skipped. -/
def decodeElementKids (acc : Element) (ts : List XTree) :
    Except DecodeError Element :=
  match ts with
  | [] => .ok acc
  | .text _ :: rest => decodeElementKids acc rest
  | .elem n a cs :: rest =>
    if n.localName = "complexType" then
      match decodeComplexTypeNode (acc.complexType.getD zeroComplexType) n a cs with
      | .error e => .error e
      | .ok ct => decodeElementKids (acc.setComplexType ct) rest
    else decodeElementKids acc rest
termination_by 2 * sizeOf ts

end

/-- Go struct `ImportSchema` (types.go): namespace and schemaLocation
attributes (Go fields Namespace, Location). -/
structure ImportSchema where
  xmlName : XName
  ns : String
  location : String
deriving DecidableEq

/-- Go struct `Schema` (types.go). -/
structure Schema where
  xmlName : XName
  imports : List ImportSchema
  simpleTypes : List SimpleType
  complexTypes : List ComplexType
  elements : List Element

/-- Go struct `Import` (types.go): namespace and location attributes. -/
structure Import where
  xmlName : XName
  ns : String
  location : String
deriving DecidableEq

/-- Go struct `Address` (types.go). -/
structure Address where
  xmlName : XName
  location : String
deriving DecidableEq

/-- Go struct `Port` (types.go). -/
structure Port where
  xmlName : XName
  name : String
  binding : String
  address : Address
deriving DecidableEq

/-- Go struct `Service` (types.go): documentation text and port list (no
XMLName field). -/
structure Service where
  doc : String
  ports : List Port
deriving DecidableEq

/-- Go struct `Part` (types.go). -/
structure Part where
  xmlName : XName
  name : String
  typeName : String
  element : String
deriving DecidableEq

/-- Go struct `Message` (types.go). -/
structure Message where
  xmlName : XName
  name : String
  parts : List Part
deriving DecidableEq

/-- Go struct `IO` (types.go; renamed here because `IO` is taken):
XMLName (no tag) and the message attribute. -/
structure IOMsg where
  xmlName : XName
  message : String
deriving DecidableEq

/-- Go struct `Operation` (types.go). -/
structure Operation where
  xmlName : XName
  name : String
  parameterOrder : String
  doc : String
  input : Option IOMsg
  output : Option IOMsg
deriving DecidableEq

/-- Go struct `PortType` (types.go). -/
structure PortType where
  xmlName : XName
  name : String
  operations : List Operation
deriving DecidableEq

/-- Go struct `SoapOperation` (types.go): soapAction attribute only. -/
structure SoapOperation where
  soapAction : String
deriving DecidableEq

/-- Go struct `BindingIO` (types.go; renamed here): parts and use
attributes. -/
structure BindingIOMsg where
  parts : String
  useAttr : String
deriving DecidableEq

/-- Go struct `BindingOperation` (types.go): its `operation` child binds
SoapOperation, and the `input>body` / `output>body` paths bind BindingIO. -/
structure BindingOperation where
  xmlName : XName
  name : String
  operation : Option SoapOperation
  input : Option BindingIOMsg
  output : Option BindingIOMsg
deriving DecidableEq

/-- Go struct `Binding` (types.go). -/
structure Binding where
  xmlName : XName
  name : String
  typeName : String
  operations : List BindingOperation
deriving DecidableEq

/-- Go struct `Definitions` (types.go): the root of a WSDL document. -/
structure Definitions where
  xmlName : XName
  name : String
  targetNamespace : String
  soapEnv : String
  soapEnc : String
  service : Service
  imports : List Import
  schema : Schema
  messages : List Message
  portType : PortType
  binding : Binding

def zeroSchema : Schema := ⟨zeroName, [], [], [], []⟩

def zeroAddress : Address := ⟨zeroName, ""⟩

def zeroPort : Port := ⟨zeroName, "", "", zeroAddress⟩

def zeroService : Service := ⟨"", []⟩

def zeroIOMsg : IOMsg := ⟨zeroName, ""⟩

def zeroOperation : Operation := ⟨zeroName, "", "", "", none, none⟩

def zeroPortType : PortType := ⟨zeroName, "", []⟩

def zeroSoapOperation : SoapOperation := ⟨""⟩

def zeroBindingIOMsg : BindingIOMsg := ⟨"", ""⟩

def zeroBindingOperation : BindingOperation := ⟨zeroName, "", none, none, none⟩

def zeroBinding : Binding := ⟨zeroName, "", "", []⟩

def zeroDefinitions : Definitions :=
  ⟨zeroName, "", "", "", "", zeroService, [], zeroSchema, [], zeroPortType,
    zeroBinding⟩

/-- Children walk for `Schema`: `import`, `simpleType`, `complexType` and
top-level `element` children append to the respective slices in stream
order; others are skipped without error. -/
def decodeSchemaKids (acc : Schema) :
    List XTree → Except DecodeError Schema
  | [] => .ok acc
  | .text _ :: rest => decodeSchemaKids acc rest
  | .elem n a cs :: rest =>
    if n.localName = "import" then
      decodeSchemaKids
        { acc with imports := acc.imports ++
            [a.foldl
              (fun (i : ImportSchema) (x : XAttr) =>
                if x.name.localName = "namespace" then { i with ns := x.value }
                else if x.name.localName = "schemaLocation" then
                  { i with location := x.value }
                else i)
              ⟨n, "", ""⟩] }
        rest
    else if n.localName = "simpleType" then
      match decodeSimpleTypeNode zeroSimpleType n a cs with
      | .error e => .error e
      | .ok st => decodeSchemaKids { acc with simpleTypes := acc.simpleTypes ++ [st] } rest
    else if n.localName = "complexType" then
      match decodeComplexTypeNode zeroComplexType n a cs with
      | .error e => .error e
      | .ok ct => decodeSchemaKids { acc with complexTypes := acc.complexTypes ++ [ct] } rest
    else if n.localName = "element" then
      match decodeElementNode zeroElement n a cs with
      | .error e => .error e
      | .ok el => decodeSchemaKids { acc with elements := acc.elements ++ [el] } rest
    else decodeSchemaKids acc rest

/-- Decode a `schema` element into an existing value (no attribute-bound
fields beyond XMLName). -/
def decodeSchemaNode (cur : Schema) (n : XName) (_attrs : List XAttr)
    (cs : List XTree) : Except DecodeError Schema :=
  decodeSchemaKids { cur with xmlName := n } cs

/-- The `types>schema` path: inside a `types` element, each `schema` child
is decoded (merging) into the Schema field; others are skipped. -/
def decodeTypesKids (acc : Schema) : List XTree → Except DecodeError Schema
  | [] => .ok acc
  | .text _ :: rest => decodeTypesKids acc rest
  | .elem n a cs :: rest =>
    if n.localName = "schema" then
      match decodeSchemaNode acc n a cs with
      | .error e => .error e
      | .ok s => decodeTypesKids s rest
    else decodeTypesKids acc rest

/-- Attribute binding for `Port` (name/binding tags). -/
def applyPortAttrs (acc : Port) (attrs : List XAttr) : Port :=
  attrs.foldl
    (fun acc a =>
      if a.name.localName = "name" then { acc with name := a.value }
      else if a.name.localName = "binding" then { acc with binding := a.value }
      else acc)
    acc

/-- Children walk for `Port`: an `address` child binds into the Address
field (its own children are skipped; Address has no element-bound
fields). -/
def decodePortKids (acc : Port) : List XTree → Port
  | [] => acc
  | .text _ :: rest => decodePortKids acc rest
  | .elem n a _ :: rest =>
    if n.localName = "address" then
      decodePortKids
        { acc with address :=
            (a.foldl
              (fun (ad : Address) (x : XAttr) =>
                if x.name.localName = "location" then
                  { ad with location := x.value }
                else ad)
              { acc.address with xmlName := n }) }
        rest
    else decodePortKids acc rest

/-- Children walk for `Service`: `documentation` binds the Doc text, `port`
children append fresh Ports; others are skipped. -/
def decodeServiceKids (acc : Service) : List XTree → Service
  | [] => acc
  | .text _ :: rest => decodeServiceKids acc rest
  | .elem n a cs :: rest =>
    if n.localName = "documentation" then
      decodeServiceKids { acc with doc := directText cs } rest
    else if n.localName = "port" then
      decodeServiceKids
        { acc with ports := acc.ports ++
            [decodePortKids (applyPortAttrs { zeroPort with xmlName := n } a) cs] }
        rest
    else decodeServiceKids acc rest

/-- Attribute binding for `Part` (name/type/element tags). -/
def applyPartAttrs (acc : Part) (attrs : List XAttr) : Part :=
  attrs.foldl
    (fun acc a =>
      if a.name.localName = "name" then { acc with name := a.value }
      else if a.name.localName = "type" then { acc with typeName := a.value }
      else if a.name.localName = "element" then { acc with element := a.value }
      else acc)
    acc

/-- Children walk for `Message`: `part` children append fresh Parts (their
subtrees hold no element-bound fields); others are skipped. -/
def decodeMessageKids (acc : Message) : List XTree → Message
  | [] => acc
  | .text _ :: rest => decodeMessageKids acc rest
  | .elem n a _ :: rest =>
    if n.localName = "part" then
      decodeMessageKids
        { acc with parts := acc.parts ++
            [applyPartAttrs ⟨n, "", "", ""⟩ a] }
        rest
    else decodeMessageKids acc rest

/-- Decode a fresh `message` element (name attribute, part children). -/
def decodeMessageNode (n : XName) (attrs : List XAttr) (cs : List XTree) :
    Message :=
  decodeMessageKids
    (attrs.foldl
      (fun (acc : Message) a =>
        if a.name.localName = "name" then { acc with name := a.value } else acc)
      ⟨n, "", []⟩)
    cs

/-- Decode an `input`/`output` element into an IOMsg (message attribute;
children skipped). -/
def decodeIOMsgNode (cur : IOMsg) (n : XName) (attrs : List XAttr) : IOMsg :=
  attrs.foldl
    (fun acc a =>
      if a.name.localName = "message" then { acc with message := a.value }
      else acc)
    { cur with xmlName := n }

/-- Children walk for `Operation`: `documentation` binds Doc, `input` and
`output` bind (merging) the optional IOMsg fields; others are skipped. -/
def decodeOperationKids (acc : Operation) : List XTree → Operation
  | [] => acc
  | .text _ :: rest => decodeOperationKids acc rest
  | .elem n a cs :: rest =>
    if n.localName = "documentation" then
      decodeOperationKids { acc with doc := directText cs } rest
    else if n.localName = "input" then
      decodeOperationKids
        { acc with input := some (decodeIOMsgNode (acc.input.getD zeroIOMsg) n a) }
        rest
    else if n.localName = "output" then
      decodeOperationKids
        { acc with output := some (decodeIOMsgNode (acc.output.getD zeroIOMsg) n a) }
        rest
    else decodeOperationKids acc rest

/-- Decode a fresh `operation` element of a portType. -/
def decodeOperationNode (n : XName) (attrs : List XAttr) (cs : List XTree) :
    Operation :=
  decodeOperationKids
    (attrs.foldl
      (fun (acc : Operation) a =>
        if a.name.localName = "name" then { acc with name := a.value }
        else if a.name.localName = "parameterOrder" then
          { acc with parameterOrder := a.value }
        else acc)
      { zeroOperation with xmlName := n })
    cs

/-- Children walk for `PortType`: `operation` children append fresh
Operations; others are skipped. -/
def decodePortTypeKids (acc : PortType) : List XTree → PortType
  | [] => acc
  | .text _ :: rest => decodePortTypeKids acc rest
  | .elem n a cs :: rest =>
    if n.localName = "operation" then
      decodePortTypeKids
        { acc with operations := acc.operations ++ [decodeOperationNode n a cs] }
        rest
    else decodePortTypeKids acc rest

/-- Decode a `portType` element into an existing value. -/
def decodePortTypeNode (cur : PortType) (n : XName) (attrs : List XAttr)
    (cs : List XTree) : PortType :=
  decodePortTypeKids
    (attrs.foldl
      (fun (acc : PortType) a =>
        if a.name.localName = "name" then { acc with name := a.value } else acc)
      { cur with xmlName := n })
    cs

/-- The `input>body` / `output>body` path: inside the wrapper element, each
`body` child binds (merging) into the optional BindingIO value. -/
def decodeBodyKids (cur : Option BindingIOMsg) :
    List XTree → Option BindingIOMsg
  | [] => cur
  | .text _ :: rest => decodeBodyKids cur rest
  | .elem n a _ :: rest =>
    if n.localName = "body" then
      decodeBodyKids
        (some (a.foldl
          (fun (b : BindingIOMsg) (x : XAttr) =>
            if x.name.localName = "parts" then { b with parts := x.value }
            else if x.name.localName = "use" then { b with useAttr := x.value }
            else b)
          (cur.getD zeroBindingIOMsg)))
        rest
    else decodeBodyKids cur rest

/-- Children walk for `BindingOperation`: an `operation` child binds
(merging) the SoapOperation (soapAction attribute; children skipped),
`input` and `output` walk their children for `body`; others are skipped. -/
def decodeBindingOperationKids (acc : BindingOperation) :
    List XTree → BindingOperation
  | [] => acc
  | .text _ :: rest => decodeBindingOperationKids acc rest
  | .elem n a cs :: rest =>
    if n.localName = "operation" then
      decodeBindingOperationKids
        { acc with operation := some (a.foldl
            (fun (so : SoapOperation) (x : XAttr) =>
              if x.name.localName = "soapAction" then
                { so with soapAction := x.value }
              else so)
            (acc.operation.getD zeroSoapOperation)) }
        rest
    else if n.localName = "input" then
      decodeBindingOperationKids { acc with input := decodeBodyKids acc.input cs }
        rest
    else if n.localName = "output" then
      decodeBindingOperationKids
        { acc with output := decodeBodyKids acc.output cs } rest
    else decodeBindingOperationKids acc rest

/-- Decode a fresh binding `operation` element. -/
def decodeBindingOperationNode (n : XName) (attrs : List XAttr)
    (cs : List XTree) : BindingOperation :=
  decodeBindingOperationKids
    (attrs.foldl
      (fun (acc : BindingOperation) a =>
        if a.name.localName = "name" then { acc with name := a.value } else acc)
      { zeroBindingOperation with xmlName := n })
    cs

/-- Children walk for `Binding`: `operation` children append fresh
BindingOperations; others are skipped. -/
def decodeBindingKids (acc : Binding) : List XTree → Binding
  | [] => acc
  | .text _ :: rest => decodeBindingKids acc rest
  | .elem n a cs :: rest =>
    if n.localName = "operation" then
      decodeBindingKids
        { acc with operations := acc.operations ++
            [decodeBindingOperationNode n a cs] }
        rest
    else decodeBindingKids acc rest

/-- Decode a `binding` element into an existing value. -/
def decodeBindingNode (cur : Binding) (n : XName) (attrs : List XAttr)
    (cs : List XTree) : Binding :=
  decodeBindingKids
    (attrs.foldl
      (fun (acc : Binding) a =>
        if a.name.localName = "name" then { acc with name := a.value }
        else if a.name.localName = "type" then { acc with typeName := a.value }
        else acc)
      { cur with xmlName := n })
    cs

/-- Attribute binding for `Definitions` (name, targetNamespace, SOAP-ENV,
SOAP-ENC). -/
def applyDefinitionsAttrs (acc : Definitions) (attrs : List XAttr) :
    Definitions :=
  attrs.foldl
    (fun acc a =>
      if a.name.localName = "name" then { acc with name := a.value }
      else if a.name.localName = "targetNamespace" then
        { acc with targetNamespace := a.value }
      else if a.name.localName = "SOAP-ENV" then { acc with soapEnv := a.value }
      else if a.name.localName = "SOAP-ENC" then { acc with soapEnc := a.value }
      else acc)
    acc

/-- Children walk for `Definitions`: service (merging), import slice,
the `types>schema` path (merging), message slice, portType and binding
(merging); unrecognized children are skipped without error.  The only
error source is the schema subtree (the ref-attribute resolver and strconv
coercions); an error aborts the walk and is returned as the decode's
result. -/
def decodeDefinitionsKids (acc : Definitions) :
    List XTree → Except DecodeError Definitions
  | [] => .ok acc
  | .text _ :: rest => decodeDefinitionsKids acc rest
  | .elem n a cs :: rest =>
    if n.localName = "service" then
      decodeDefinitionsKids { acc with service := decodeServiceKids acc.service cs }
        rest
    else if n.localName = "import" then
      decodeDefinitionsKids
        { acc with imports := acc.imports ++
            [a.foldl
              (fun (i : Import) (x : XAttr) =>
                if x.name.localName = "namespace" then { i with ns := x.value }
                else if x.name.localName = "location" then
                  { i with location := x.value }
                else i)
              ⟨n, "", ""⟩] }
        rest
    else if n.localName = "types" then
      match decodeTypesKids acc.schema cs with
      | .error e => .error e
      | .ok s => decodeDefinitionsKids { acc with schema := s } rest
    else if n.localName = "message" then
      decodeDefinitionsKids
        { acc with messages := acc.messages ++ [decodeMessageNode n a cs] } rest
    else if n.localName = "portType" then
      decodeDefinitionsKids
        { acc with portType := decodePortTypeNode acc.portType n a cs } rest
    else if n.localName = "binding" then
      decodeDefinitionsKids
        { acc with binding := decodeBindingNode acc.binding n a cs } rest
    else decodeDefinitionsKids acc rest

/-- Decode a whole WSDL document from its parsed root element, as
`xml.Unmarshal` does for a `Definitions` destination: the root element's
local name must be `definitions` (the struct's XMLName tag), attributes
bind first, then the children walk runs; the result is either a fully
populated Definitions or the first error met. -/
def decodeDefinitions (t : XTree) : Except DecodeError Definitions :=
  match t with
  | .text _ => .error (.wrongRootElement "")
  | .elem n a cs =>
    if n.localName = "definitions" then
      decodeDefinitionsKids
        (applyDefinitionsAttrs { zeroDefinitions with xmlName := n } a) cs
    else .error (.wrongRootElement n.localName)

/-- An `element` child tree with only a name attribute. -/
def elemTreeNamed (nm : String) : XTree :=
  .elem ⟨"", "element"⟩ [⟨⟨"", "name"⟩, nm⟩] []

/-- An `any` wildcard child tree. -/
def anyTree : XTree := .elem ⟨"", "any"⟩ [] []

/-- Sequence children in source order [Element "a", AnyElement,
Element "b"]. -/
def seqKidsA : List XTree := [elemTreeNamed "a", anyTree, elemTreeNamed "b"]

/-- Sequence children in source order [Element "a", Element "b",
AnyElement]. -/
def seqKidsB : List XTree := [elemTreeNamed "a", elemTreeNamed "b", anyTree]

/-- The kind of a recognized `sequence` child. -/
inductive SeqChildKind where
  | ctype
  | element
  | anyElem
deriving DecidableEq

/-- Kinds of the recognized children of a `sequence`, in source order. -/
def seqChildKinds (ts : List XTree) : List SeqChildKind :=
  ts.filterMap fun t =>
    match t with
    | .elem n _ _ =>
      if n.localName = "complexType" then some .ctype
      else if n.localName = "element" then some .element
      else if n.localName = "any" then some .anyElem
      else none
    | .text _ => none

/-- The common decode result of `seqKidsA` and `seqKidsB`. -/
def cexSeq : Sequence :=
  .mk ⟨"", "sequence"⟩ []
    [.mk ⟨"", "element"⟩ "a" "" "" 0 "" false none,
      .mk ⟨"", "element"⟩ "b" "" "" 0 "" false none]
    [⟨⟨"", "any"⟩, 0, ""⟩]

/-- Claim C1, refuted: `Sequence` stores its three child kinds in three
separate slices, so the two source orders [Element "a", AnyElement,
Element "b"] and [Element "a", Element "b", AnyElement] decode to the same
value and no function of the decoded Sequence can reproduce the combined
cross-kind source order. -/
theorem sequence_crossKind_order_lost :
    ¬ ∃ f : Sequence → List SeqChildKind,
      ∀ (ts : List XTree) (s : Sequence),
        decodeSequenceNode zeroSequence ⟨"", "sequence"⟩ [] ts = .ok s →
        f s = seqChildKinds ts := by
  rintro ⟨f, hf⟩
  have hA : decodeSequenceNode zeroSequence ⟨"", "sequence"⟩ [] seqKidsA =
      .ok cexSeq := by
    simp [decodeSequenceNode, decodeSequenceKids, decodeElementNode,
      decodeElementKids, applyElementAttrs, applyElementAttr,
      applyAnyElementAttrs, seqKidsA, elemTreeNamed, anyTree, zeroSequence,
      zeroElement, zeroAnyElement, zeroName, Sequence.setXmlName,
      Element.setXmlName, Sequence.addElement, Sequence.addAny, cexSeq]
  have hB : decodeSequenceNode zeroSequence ⟨"", "sequence"⟩ [] seqKidsB =
      .ok cexSeq := by
    simp [decodeSequenceNode, decodeSequenceKids, decodeElementNode,
      decodeElementKids, applyElementAttrs, applyElementAttr,
      applyAnyElementAttrs, seqKidsB, elemTreeNamed, anyTree, zeroSequence,
      zeroElement, zeroAnyElement, zeroName, Sequence.setXmlName,
      Element.setXmlName, Sequence.addElement, Sequence.addAny, cexSeq]
  have h1 := hf seqKidsA cexSeq hA
  have h2 := hf seqKidsB cexSeq hB
  exact absurd (h1.symm.trans h2) (by decide)

/-- Claim C8: the decoder is a pure function of the parsed input — the same
input decoded twice yields the same error twice or structurally equal
Documents; the embedding threads no state between calls. -/
theorem decode_deterministic (t : XTree) :
    (∃ e, decodeDefinitions t = .error e ∧ decodeDefinitions t = .error e) ∨
    (∃ d1 d2, decodeDefinitions t = .ok d1 ∧ decodeDefinitions t = .ok d2 ∧
      d1 = d2) := by
  cases h : decodeDefinitions t with
  | error e => exact Or.inl ⟨e, rfl, rfl⟩
  | ok d => exact Or.inr ⟨d, d, rfl, rfl, rfl⟩

theorem ctStep_unrecognized (acc : ComplexType) (n : XName) (a : List XAttr)
    (cs : List XTree) (h1 : n.localName ≠ "annotation")
    (h2 : n.localName ≠ "all") (h3 : n.localName ≠ "complexContent")
    (h4 : n.localName ≠ "sequence") : ctStep acc n a cs = .ok acc := by
  simp only [ctStep, if_neg h1, if_neg h2, if_neg h3, if_neg h4]

/-- Claim C7: a `complexType` child element whose tag is not one of the
modeled ones (`annotation`, `all`, `complexContent`, `sequence`) never
causes a decode failure and leaves no trace: decoding with the unrecognized
child present equals decoding with it removed, wherever it sits among the
children. -/
theorem complexType_skips_unrecognized_child (acc : ComplexType)
    (pre post : List XTree) (n : XName) (a : List XAttr) (cs : List XTree)
    (h1 : n.localName ≠ "annotation") (h2 : n.localName ≠ "all")
    (h3 : n.localName ≠ "complexContent") (h4 : n.localName ≠ "sequence") :
    decodeComplexTypeKids acc (pre ++ XTree.elem n a cs :: post) =
      decodeComplexTypeKids acc (pre ++ post) := by
  induction pre generalizing acc with
  | nil =>
    simp only [List.nil_append]
    conv_lhs => rw [decodeComplexTypeKids]
    rw [ctStep_unrecognized acc n a cs h1 h2 h3 h4]
  | cons t pre' ih =>
    simp only [List.cons_append]
    cases t with
    | text s =>
      conv_lhs => rw [decodeComplexTypeKids]
      conv_rhs => rw [decodeComplexTypeKids]
      exact ih acc
    | elem m b k =>
      conv_lhs => rw [decodeComplexTypeKids]
      conv_rhs => rw [decodeComplexTypeKids]
      cases hstep : ctStep acc m b k with
      | error e => rfl
      | ok acc2 => exact ih acc2

/-- Witness for C7: a `complexType` whose children are a `sequence` and an
unrecognized `unknownChild` element decodes exactly as without the
unrecognized child. -/
theorem complexType_skips_unrecognized_child_witness :
    decodeComplexTypeKids zeroComplexType
        ([XTree.elem ⟨"", "sequence"⟩ [] []] ++
          XTree.elem ⟨"", "unknownChild"⟩ [] [XTree.text "junk"] :: []) =
      decodeComplexTypeKids zeroComplexType
        ([XTree.elem ⟨"", "sequence"⟩ [] []] ++ []) :=
  complexType_skips_unrecognized_child zeroComplexType
    [XTree.elem ⟨"", "sequence"⟩ [] []] [] ⟨"", "unknownChild"⟩ []
    [XTree.text "junk"] (by decide) (by decide) (by decide) (by decide)

theorem applyElementAttr_max (acc : Element) (a : XAttr) (r : Element)
    (hne : a.name.localName ≠ "maxOccurs")
    (h : applyElementAttr acc a = .ok r) : r.max = acc.max := by
  cases acc with
  | mk xn nm rf ty mn mx nl ct =>
    simp only [applyElementAttr] at h
    split_ifs at h with hn hrf hty hmin hnil
    · rw [← Except.ok.inj h]; rfl
    · rw [← Except.ok.inj h]; rfl
    · rw [← Except.ok.inj h]; rfl
    · cases hp : parseGoInt a.value with
      | error e => simp only [hp] at h; exact Except.noConfusion h
      | ok v => simp only [hp] at h; rw [← Except.ok.inj h]; rfl
    · cases hp : parseGoBool a.value with
      | error e => simp only [hp] at h; exact Except.noConfusion h
      | ok b => simp only [hp] at h; rw [← Except.ok.inj h]; rfl
    · rw [← Except.ok.inj h]

theorem applyElementAttrs_max (l : List XAttr) :
    ∀ acc r : Element, (∀ a ∈ l, a.name.localName ≠ "maxOccurs") →
      applyElementAttrs acc l = .ok r → r.max = acc.max := by
  induction l with
  | nil =>
    intro acc r _ h
    simp only [applyElementAttrs] at h
    rw [← Except.ok.inj h]
  | cons a rest ih =>
    intro acc r hl h
    simp only [applyElementAttrs] at h
    cases hstep : applyElementAttr acc a with
    | error e => simp only [hstep] at h; exact Except.noConfusion h
    | ok acc2 =>
      simp only [hstep] at h
      rw [ih acc2 r (fun x hx => hl x (List.mem_cons_of_mem _ hx)) h]
      exact applyElementAttr_max acc a acc2 (hl a (List.mem_cons_self a rest))
        hstep

theorem Element.setComplexType_max (acc : Element) (ct : ComplexType) :
    (acc.setComplexType ct).max = acc.max := by
  cases acc with
  | mk xn nm rf ty mn mx nl c => rfl

theorem decodeElementKids_max (ts : List XTree) :
    ∀ acc r : Element, decodeElementKids acc ts = .ok r →
      r.max = acc.max := by
  induction ts with
  | nil =>
    intro acc r h
    rw [decodeElementKids] at h
    rw [← Except.ok.inj h]
  | cons t rest ih =>
    intro acc r h
    cases t with
    | text s =>
      rw [decodeElementKids] at h
      exact ih acc r h
    | elem m b k =>
      rw [decodeElementKids] at h
      by_cases hm : m.localName = "complexType"
      · simp only [if_pos hm] at h
        cases hct : decodeComplexTypeNode (acc.complexType.getD zeroComplexType)
            m b k with
        | error e => simp only [hct] at h; exact Except.noConfusion h
        | ok ct =>
          simp only [hct] at h
          rw [ih (acc.setComplexType ct) r h]
          exact Element.setComplexType_max acc ct
      · simp only [if_neg hm] at h
        exact ih acc r h

theorem applyElementAttrs_append (l1 l2 : List XAttr) :
    ∀ acc : Element,
      applyElementAttrs acc (l1 ++ l2) =
        match applyElementAttrs acc l1 with
        | .error e => .error e
        | .ok acc2 => applyElementAttrs acc2 l2 := by
  induction l1 with
  | nil =>
    intro acc
    simp only [List.nil_append, applyElementAttrs]
  | cons a rest ih =>
    intro acc
    simp only [List.cons_append, applyElementAttrs]
    cases hstep : applyElementAttr acc a with
    | error e => rfl
    | ok acc2 => exact ih acc2

/-- Claim C6: the Max field of a decoded `element` preserves the source
maxOccurs attribute verbatim as a string — whatever value `v` the (last)
maxOccurs attribute carries, the decoded Element has `Max = v`, with no
numeric coercion at this layer. -/
theorem element_max_verbatim (cur : Element) (n : XName) (sp : String)
    (pre post : List XAttr) (v : String) (cs : List XTree) (r : Element)
    (hpost : ∀ a ∈ post, a.name.localName ≠ "maxOccurs")
    (hok : decodeElementNode cur n (pre ++ ⟨⟨sp, "maxOccurs"⟩, v⟩ :: post) cs =
      .ok r) :
    r.max = v := by
  rw [decodeElementNode] at hok
  cases happ : applyElementAttrs (cur.setXmlName n)
      (pre ++ ⟨⟨sp, "maxOccurs"⟩, v⟩ :: post) with
  | error e => simp only [happ] at hok; exact Except.noConfusion hok
  | ok acc =>
    simp only [happ] at hok
    have hmax : acc.max = v := by
      rw [applyElementAttrs_append] at happ
      cases hpre : applyElementAttrs (cur.setXmlName n) pre with
      | error e => simp only [hpre] at happ; exact Except.noConfusion happ
      | ok acc1 =>
        simp only [hpre] at happ
        obtain ⟨acc2, hstep, hmax2⟩ :
            ∃ acc2 : Element,
              applyElementAttr acc1 ⟨⟨sp, "maxOccurs"⟩, v⟩ = .ok acc2 ∧
              acc2.max = v := by
          cases acc1 with
          | mk xn nm rf ty mn mx nl ct =>
            refine ⟨.mk xn nm rf ty mn v nl ct, ?_, rfl⟩
            simp [applyElementAttr]
        simp only [applyElementAttrs, hstep] at happ
        rw [applyElementAttrs_max post acc2 acc hpost happ]
        exact hmax2
    rw [decodeElementKids_max cs acc r hok]
    exact hmax

/-- Witness for C6: `maxOccurs="unbounded"` decodes to the literal string
"unbounded" even with a later non-maxOccurs attribute present. -/
theorem element_max_verbatim_witness :
    (∀ a ∈ [(⟨⟨"", "name"⟩, "x"⟩ : XAttr)], a.name.localName ≠ "maxOccurs") ∧
    (Element.mk ⟨"", "element"⟩ "x" "" "" 0 "unbounded" false none).max =
      "unbounded" := by
  refine ⟨by decide, ?_⟩
  refine element_max_verbatim zeroElement ⟨"", "element"⟩ "" []
    [⟨⟨"", "name"⟩, "x"⟩] "unbounded" []
    (Element.mk ⟨"", "element"⟩ "x" "" "" 0 "unbounded" false none)
    (by decide) ?_
  simp [decodeElementNode, decodeElementKids, applyElementAttrs,
    applyElementAttr, zeroElement, zeroName, Element.setXmlName]

/-- A minimal WSDL document whose schema holds one simpleType restriction
with one `attribute` child carrying the given attribute set. -/
def defnsTreeWith (attrs : List XAttr) : XTree :=
  .elem ⟨"", "definitions"⟩ []
    [.elem ⟨"", "types"⟩ []
      [.elem ⟨"", "schema"⟩ []
        [.elem ⟨"", "simpleType"⟩ [⟨⟨"", "name"⟩, "t"⟩]
          [.elem ⟨"", "restriction"⟩ []
            [.elem ⟨"", "attribute"⟩ attrs []]]]]]

/-- Claim C3, amended: an `attribute` element fails with
MissingRequiredAttribute whenever the derived Key is empty — when no `ref`
attribute is present, and also when `ref` is present with an empty final
colon-separated segment — and the failure aborts the entire document
decode: the decode returns the error and no partial Document. -/
theorem restrictionAttr_missing_ref_aborts_decode (attrs : List XAttr)
    (h : ∀ a : XAttr, findRefAttr attrs = some a →
      lastColonSegment a.value = "") :
    restrictionAttrFromAttrs ⟨"", "attribute"⟩ attrs =
      .error .missingRequiredAttribute ∧
    decodeDefinitions (defnsTreeWith attrs) =
      .error .missingRequiredAttribute := by
  have hfail := restrictionAttrFromAttrs_key_empty ⟨"", "attribute"⟩ attrs h
  refine ⟨hfail, ?_⟩
  simp [defnsTreeWith, decodeDefinitions, decodeDefinitionsKids,
    applyDefinitionsAttrs, decodeTypesKids, decodeSchemaNode, decodeSchemaKids,
    decodeSimpleTypeNode, applySimpleTypeAttrs, decodeSimpleTypeKids,
    decodeRestrictionNode, applyRestrictionAttrList, decodeRestrictionKids,
    hfail, zeroDefinitions, zeroSchema, zeroSimpleType, zeroRestriction,
    zeroName]

/-- Witness for C3 (amended): an `attribute` element with no attributes at
all (hence no `ref`) aborts the document decode. -/
theorem restrictionAttr_missing_ref_aborts_decode_witness :
    restrictionAttrFromAttrs ⟨"", "attribute"⟩ [] =
      .error .missingRequiredAttribute ∧
    decodeDefinitions (defnsTreeWith []) =
      .error .missingRequiredAttribute :=
  restrictionAttr_missing_ref_aborts_decode []
    (by intro a ha; simp [findRefAttr] at ha)

end Wsdl
